import Mathlib

/-!
Shallow embedding of the multi-account Bitget trading script (src/main.py).
Python floats are modelled as rationals, the exchange API collaborator as a
per-account deterministic `ClientModel`, and every outgoing client call is
recorded in a trace so that claims about "which accounts were contacted" can
be stated and settled.
-/

/-- Python value returned by the per-account execute functions of
`MultiAccountTrader`: `None`, a boolean, or a string (an order id). -/
inductive PyRet where
  | none
  | bool (b : Bool)
  | str (s : String)
deriving DecidableEq

/-- Python truthiness of a `PyRet`, as used by the batch summary
`success_count = len([r for r in results.values() if r])`. -/
def PyRet.truthy : PyRet → Bool
  | .none => false
  | .bool b => b
  | .str s => decide (s ≠ "")

/-- The quantity argument passed to `BitgetClient.place_order`: the source
passes either a raw float, `int(quantity)`, or the formatter's string output.
`place_order` applies `str()` to it, so the three constructors denote
different wire encodings. -/
inductive Qty where
  | num (q : ℚ)
  | int (n : ℤ)
  | str (s : String)
deriving DecidableEq

/-- Python `int()` applied to a float: truncation toward zero.  A `Rat` is a
reduced fraction with positive denominator, and `Int.div` truncates toward
zero. -/
def pyInt (q : ℚ) : ℤ := Int.tdiv q.num q.den

/-- Floor of a rational as an integer (`Int.fdiv` rounds toward negative
infinity). -/
def ratFloor (q : ℚ) : ℤ := Int.fdiv q.num q.den

/-- Wire parameters built by `BitgetClient.place_order` (src/main.py 55-78).
The `str()` conversions applied to price and quantity are modelled at the
value level. -/
structure WireParams where
  symbol : String
  side : String
  orderType : String
  force : String
  clientOrderId : String
  price : Option ℚ
  quantity : Option Qty
deriving DecidableEq

/-- `BitgetClient.place_order`: builds the request parameters, always attaching
`clientOrderId = f"{int(time.time() * 1000)}"`.  A limit order with a missing
or non-positive price raises `ValueError`, which the surrounding `except`
turns into a `{"code": -1}` error result before the exchange is contacted.
`now_ms` stands for `int(time.time() * 1000)` at submission time. -/
def place_order (now_ms : ℕ) (symbol side orderType : String)
    (quantity : Option Qty) (price : Option ℚ) : Except Int WireParams :=
  let base : WireParams :=
    { symbol := symbol, side := side, orderType := orderType, force := "gtc",
      clientOrderId := toString now_ms, price := none, quantity := none }
  if orderType = "limit" then
    match price with
    | none => Except.error (-1)
    | some p =>
      if p ≤ 0 then Except.error (-1)
      else Except.ok { base with price := some p, quantity := quantity }
  else if orderType = "market" then
    Except.ok { base with quantity := quantity }
  else
    Except.ok base

/-- Sell sizing from src/main.py lines 625 and 720:
`quantity = available_balance * (sell_percentage / 100)`. -/
def sellQuantity (available sell_percentage : ℚ) : ℚ :=
  available * (sell_percentage / 100)

/-- Round a rational to the nearest integer, ties to even — the rounding used
by Python's fixed-point float formatting `"{:.7f}".format`. -/
def roundHalfEven (q : ℚ) : ℤ :=
  let f := ratFloor q
  let r := q - (f : ℚ)
  if r < 1 / 2 then f
  else if 1 / 2 < r then f + 1
  else if f % 2 = 0 then f else f + 1

/-- Decimal digit character for a value below ten. -/
def digitChar (d : ℕ) : Char :=
  match d with
  | 0 => '0'
  | 1 => '1'
  | 2 => '2'
  | 3 => '3'
  | 4 => '4'
  | 5 => '5'
  | 6 => '6'
  | 7 => '7'
  | 8 => '8'
  | 9 => '9'
  | _ => '*'

/-- Decimal digit characters of a natural number, fuel-driven so that it
reduces inside the kernel. -/
def natDigitsAux : ℕ → ℕ → List Char
  | 0, _ => []
  | fuel + 1, n =>
    if n < 10 then [digitChar n]
    else natDigitsAux fuel (n / 10) ++ [digitChar (n % 10)]

/-- Decimal digit characters of a natural number (most significant first). -/
def natDigitsList (n : ℕ) : List Char := natDigitsAux (n + 1) n

/-- A fractional value below `10 ^ 7`, zero-padded to exactly seven digits. -/
def pad7 (m : ℕ) : List Char :=
  let ds := natDigitsList m
  List.replicate (7 - ds.length) '0' ++ ds

/-- Python `str.rstrip` with a single strip character, on character lists. -/
def rstripList (c : Char) (l : List Char) : List Char :=
  (l.reverse.dropWhile (fun x => decide (x = c))).reverse

/-- Python `str.rstrip` with a single strip character, on strings. -/
def pyRstrip (s : String) (c : Char) : String := String.mk (rstripList c s.data)

/-- Number of characters after the decimal point of a fixed-point decimal
string (zero when the string has no decimal point). -/
def fracDigits (s : String) : ℕ :=
  if '.' ∈ s.data then (s.data.reverse.takeWhile (fun c => decide (c ≠ '.'))).length
  else 0

/-- Last character of a string, if any. -/
def strLast (s : String) : Option Char := s.data.reverse.head?

/-- Python's `"{:.7f}".format(q)`: sign, integer part, a decimal point and
exactly seven fractional digits of the value rounded half-to-even. -/
def formatFixed7 (q : ℚ) : String :=
  let n := (roundHalfEven ((if q < 0 then -q else q) * 10 ^ 7)).toNat
  String.mk ((if q < 0 then ['-'] else []) ++
    natDigitsList (n / 10 ^ 7) ++ '.' :: pad7 (n % 10 ^ 7))

/-- The numeric branch of `MultiAccountTrader.format_quantity_for_api`
(src/main.py 857-877).  The source distinguishes `quantity < 0.0001` from the
rest, but both branches perform the same
`"{:.7f}".format(quantity).rstrip("0").rstrip(".")`. -/
def format_quantity_num (q : ℚ) : String :=
  if q < 1 / 10000 then pyRstrip (pyRstrip (formatFixed7 q) '0') '.'
  else pyRstrip (pyRstrip (formatFixed7 q) '0') '.'

/-- Numeric value of a decimal digit character. -/
def digitVal? (c : Char) : Option ℕ :=
  if c.isDigit then Option.some (c.toNat - 48) else Option.none

/-- Split a leading run of decimal digits off a character list. -/
def takeDigits : List Char → List ℕ × List Char
  | [] => ([], [])
  | c :: rest =>
    match digitVal? c with
    | Option.some d =>
      let r := takeDigits rest
      (d :: r.1, r.2)
    | Option.none => ([], c :: rest)

/-- Natural number denoted by a list of decimal digits. -/
def digitsToNat (ds : List ℕ) : ℕ := ds.foldl (fun a d => 10 * a + d) 0

/-- Model of Python `float(str)`: optional surrounding whitespace, optional
sign, then digits with an optional fractional part and an optional decimal
exponent.  Returns `none` when the string is not a float literal (the
`inf`/`nan` spellings and digit underscores are not modelled). -/
def parseFloat (s : String) : Option ℚ :=
  let l := ((s.data.dropWhile (fun c => c.isWhitespace)).reverse.dropWhile
    (fun c => c.isWhitespace)).reverse
  let sl : ℚ × List Char :=
    match l with
    | '+' :: r => (1, r)
    | '-' :: r => (-1, r)
    | r => (1, r)
  let ipr := takeDigits sl.2
  let fpr : List ℕ × List Char :=
    match ipr.2 with
    | '.' :: r => takeDigits r
    | r => ([], r)
  if ipr.1 = [] ∧ fpr.1 = [] then Option.none
  else
    let mant : ℚ := sl.1 * ((digitsToNat ipr.1 : ℚ) +
      (digitsToNat fpr.1 : ℚ) / 10 ^ fpr.1.length)
    match fpr.2 with
    | [] => Option.some mant
    | 'e' :: r =>
      match
        (match r with
          | '+' :: r2 => ((1 : ℤ), r2)
          | '-' :: r2 => ((-1 : ℤ), r2)
          | r2 => ((1 : ℤ), r2)) with
      | (es, r2) =>
        let ed := takeDigits r2
        if ed.1 = [] ∨ ed.2 ≠ [] then Option.none
        else Option.some (mant * (10 : ℚ) ^ (es * (digitsToNat ed.1 : ℤ)))
    | 'E' :: r =>
      match
        (match r with
          | '+' :: r2 => ((1 : ℤ), r2)
          | '-' :: r2 => ((-1 : ℤ), r2)
          | r2 => ((1 : ℤ), r2)) with
      | (es, r2) =>
        let ed := takeDigits r2
        if ed.1 = [] ∨ ed.2 ≠ [] then Option.none
        else Option.some (mant * (10 : ℚ) ^ (es * (digitsToNat ed.1 : ℤ)))
    | _ => Option.none

/-- Argument accepted by the formatter: a numeric value or a string. -/
inductive PyVal where
  | num (q : ℚ)
  | str (s : String)
deriving DecidableEq

/-- `MultiAccountTrader.format_quantity_for_api` (src/main.py 857-877): a
string argument is parsed with `float()` and returned unchanged when the
parse fails; numeric input goes through the fixed-point formatter. -/
def format_quantity_for_api : PyVal → String
  | .str s =>
    match parseFloat s with
    | Option.none => s
    | Option.some q => format_quantity_num q
  | .num q => format_quantity_num q

/-- One asset entry of the `get_account_assets` response `data` list. -/
structure Asset where
  coinName : String
  available : ℚ
deriving DecidableEq

/-- One entry of the `get_open_orders` response `data` list. -/
structure OpenOrder where
  orderId : String
  side : String
  orderType : String
  price : String
  quantity : String
deriving DecidableEq

/-- Deterministic behaviour of one account's `BitgetClient` collaborator.
`assets = none` models a balance response without a usable `data` field,
`curPrice = none` a failed ticker lookup, `openOrders = none` an open-orders
listing whose code is not `"00000"`; `placeCode`/`placeOrderId` are the
code and `data.orderId` of the place-order response, and `cancelCode` the
response code of cancelling a given order id. -/
structure ClientModel where
  assets : Option (List Asset)
  curPrice : Option ℚ
  placeCode : String
  placeOrderId : String
  openOrders : Option (List OpenOrder)
  cancelCode : String → String

/-- One entry of `MultiAccountTrader.clients`: the client plus the
`active` flag. -/
structure AccountInfo where
  client : ClientModel
  active : Bool

/-- The `trading` section of the configuration. -/
structure Trading where
  symbol : String
  coin : String
  quote : String
  buy_amount : Option ℚ
  sell_percentage : Option ℚ
  price : Option ℚ

/-- The `user_inputs` dictionary gathered once per batch by
`trade_all_accounts` before the per-account loop. -/
structure UserInputs where
  buy_amount : Option ℚ
  sell_percentage : Option ℚ
  price : Option ℚ
deriving DecidableEq

/-- One outgoing call to an account's client, recorded in execution order. -/
inductive ClientCall where
  | getAssets (coin : String)
  | getPrice (symbol : String)
  | placeOrder (symbol side orderType : String) (quantity : Qty) (price : Option ℚ)
  | listOpenOrders (symbol : String)
  | cancelOrder (symbol orderId : String)
deriving DecidableEq

/-- An interactive reply: an empty line (the documented default applies), a
line `float()` accepts, or one it rejects with `ValueError`. -/
inductive Reply where
  | empty
  | numeric (q : ℚ)
  | nonNumeric
deriving DecidableEq

/-- The at-most-one reply per prompt kind a batch can consume. -/
structure Replies where
  amount : Reply
  percentage : Reply
  price : Reply

/-- The six trading actions `trade_all_accounts` dispatches on; the source
identifies them by the strings "buy_market", "buy_limit", "sell_market",
"sell_limit", "cancel_buy_limits" and "cancel_sell_limits". -/
inductive TradeAction where
  | buy_market
  | buy_limit
  | sell_market
  | sell_limit
  | cancel_buy_limits
  | cancel_sell_limits
deriving DecidableEq

/-- Value of an interactive reply given the default used for an empty line
(`none` default means the default string itself fails `float()`, as with
`str(None)` for a missing market price). -/
def replyVal (r : Reply) (dflt : Option ℚ) : Option ℚ :=
  match r with
  | .empty => dflt
  | .numeric q => Option.some q
  | .nonNumeric => Option.none

/-- Quantity argument for placement:
`int(quantity) if quantity >= 1 else self.format_quantity_for_api(quantity)`
(src/main.py 543, 629, 724). -/
def apiQty (q : ℚ) : Qty :=
  if 1 ≤ q then Qty.int (pyInt q) else Qty.str (format_quantity_num q)

/-- Available balance extracted from the assets list: zero, overwritten by the
first entry whose `coinName` matches (the source loop breaks on the first
match). -/
def findAvailable : List Asset → String → ℚ
  | [], _ => 0
  | a :: rest, coin => if a.coinName = coin then a.available else findAvailable rest coin

/-- Two-level parameter resolution used for `buy_amount` and
`sell_percentage`: the batch's `user_inputs` value if present, else the
configured value, else nothing. -/
def resolve2 (ui cfgv : Option ℚ) : Option ℚ :=
  match ui with
  | Option.some v => Option.some v
  | Option.none => cfgv

/-- Price resolution used by the limit executes: the batch's `user_inputs`
price if present, else the configured price when positive, else the fallback
(the account's current market price, or zero when that lookup failed). -/
def resolve_price (ui cfgp : Option ℚ) (fallback : ℚ) : ℚ :=
  match ui with
  | Option.some p => p
  | Option.none =>
    match cfgp with
    | Option.some p => if 0 < p then p else fallback
    | Option.none => fallback

/-- The source's test `"price" not in config or config["price"] <= 0` under
which a configured price counts as absent. -/
def priceAbsent (c : Option ℚ) : Bool :=
  match c with
  | Option.none => true
  | Option.some p => decide (p ≤ 0)

/-- `MultiAccountTrader.execute_buy_market` (src/main.py 465-504): resolve the
quote amount, validate it, place a market buy with the raw amount as
quantity. -/
def execute_buy_market (cfg : Trading) (ui : UserInputs) (cm : ClientModel) :
    PyRet × List ClientCall :=
  match resolve2 ui.buy_amount cfg.buy_amount with
  | Option.none => (PyRet.none, [])
  | Option.some quantity =>
    if quantity ≤ 0 then (PyRet.none, [])
    else
      let call := ClientCall.placeOrder cfg.symbol "buy" "market" (Qty.num quantity)
        Option.none
      if cm.placeCode = "00000" then (PyRet.str cm.placeOrderId, [call])
      else (PyRet.none, [call])

/-- `MultiAccountTrader.execute_buy_limit` (src/main.py 507-568): resolve the
quote amount and the price (the fallback branch queries the account's own
ticker), validate, and place a limit buy whose quantity is the raw
`quantity / price` — the formatted quantity is computed but never used. -/
def execute_buy_limit (cfg : Trading) (ui : UserInputs) (cm : ClientModel) :
    PyRet × List ClientCall :=
  match resolve2 ui.buy_amount cfg.buy_amount with
  | Option.none => (PyRet.none, [])
  | Option.some quantity =>
    let pr : ℚ × List ClientCall :=
      match ui.price with
      | Option.some p => (p, [])
      | Option.none =>
        match cfg.price with
        | Option.some p =>
          if 0 < p then (p, [])
          else (Option.getD cm.curPrice 0, [ClientCall.getPrice cfg.symbol])
        | Option.none => (Option.getD cm.curPrice 0, [ClientCall.getPrice cfg.symbol])
    let price := pr.1
    if quantity ≤ 0 ∨ price ≤ 0 then (PyRet.none, pr.2)
    else
      let _formatted_sell_quantity := apiQty quantity
      let call := ClientCall.placeOrder cfg.symbol "buy" "limit"
        (Qty.num (quantity / price)) (Option.some price)
      if cm.placeCode = "00000" then (PyRet.str cm.placeOrderId, pr.2 ++ [call])
      else (PyRet.none, pr.2 ++ [call])

/-- `MultiAccountTrader.execute_sell_market` (src/main.py 571-653): query the
balance, skip on a missing or non-positive balance, resolve and validate the
percentage, look the market price up for display, and place a market sell
with the int-or-formatted quantity. -/
def execute_sell_market (cfg : Trading) (ui : UserInputs) (cm : ClientModel) :
    PyRet × List ClientCall :=
  let calls0 := [ClientCall.getAssets cfg.coin]
  match cm.assets with
  | Option.none => (PyRet.none, calls0)
  | Option.some assets =>
    if assets = [] then (PyRet.none, calls0)
    else
      let available_balance := findAvailable assets cfg.coin
      if available_balance ≤ 0 then (PyRet.none, calls0)
      else
        match resolve2 ui.sell_percentage cfg.sell_percentage with
        | Option.none => (PyRet.none, calls0)
        | Option.some sell_percentage =>
          if sell_percentage ≤ 0 ∨ 100 < sell_percentage then (PyRet.none, calls0)
          else
            let quantity := sellQuantity available_balance sell_percentage
            let call := ClientCall.placeOrder cfg.symbol "sell" "market"
              (apiQty quantity) Option.none
            let calls := calls0 ++ [ClientCall.getPrice cfg.symbol, call]
            if cm.placeCode = "00000" then (PyRet.str cm.placeOrderId, calls)
            else (PyRet.none, calls)

/-- `MultiAccountTrader.execute_sell_limit` (src/main.py 655-749): query the
balance, skip on a missing or non-positive balance, look the market price up
for reference, resolve percentage and price, validate both, and place a limit
sell with the int-or-formatted quantity. -/
def execute_sell_limit (cfg : Trading) (ui : UserInputs) (cm : ClientModel) :
    PyRet × List ClientCall :=
  let calls0 := [ClientCall.getAssets cfg.coin]
  match cm.assets with
  | Option.none => (PyRet.none, calls0)
  | Option.some assets =>
    if assets = [] then (PyRet.none, calls0)
    else
      let available_balance := findAvailable assets cfg.coin
      if available_balance ≤ 0 then (PyRet.none, calls0)
      else
        let calls1 := calls0 ++ [ClientCall.getPrice cfg.symbol]
        match resolve2 ui.sell_percentage cfg.sell_percentage with
        | Option.none => (PyRet.none, calls1)
        | Option.some sell_percentage =>
          let price := resolve_price ui.price cfg.price (Option.getD cm.curPrice 0)
          if sell_percentage ≤ 0 ∨ 100 < sell_percentage ∨ price ≤ 0 then
            (PyRet.none, calls1)
          else
            let quantity := sellQuantity available_balance sell_percentage
            let call := ClientCall.placeOrder cfg.symbol "sell" "limit"
              (apiQty quantity) (Option.some price)
            let calls := calls1 ++ [call]
            if cm.placeCode = "00000" then (PyRet.str cm.placeOrderId, calls)
            else (PyRet.none, calls)

/-- Open orders matching `{side, orderType = "limit"}`. -/
def matchingOrders (side : String) (orders : List OpenOrder) : List OpenOrder :=
  orders.filter (fun o => decide (o.side = side ∧ o.orderType = "limit"))

/-- The per-order cancellation loop shared by both cancel executes: counts
cancelled and failed orders and always proceeds to the next order. -/
def cancelLoop (cfg : Trading) (cm : ClientModel) :
    List OpenOrder → ℕ × ℕ × List ClientCall
  | [] => (0, 0, [])
  | o :: rest =>
    let call := ClientCall.cancelOrder cfg.symbol o.orderId
    let r := cancelLoop cfg cm rest
    if cm.cancelCode o.orderId = "00000" then (r.1 + 1, r.2.1, call :: r.2.2)
    else (r.1, r.2.1 + 1, call :: r.2.2)

/-- `MultiAccountTrader.execute_cancel_buy_limits` (src/main.py 751-802):
`None` when the listing fails, `True` when no buy-limit order is open, else
each matching order is cancelled in turn and the result is
`cancelled_count > 0`. -/
def execute_cancel_buy_limits (cfg : Trading) (cm : ClientModel) :
    PyRet × List ClientCall :=
  let calls0 := [ClientCall.listOpenOrders cfg.symbol]
  match cm.openOrders with
  | Option.none => (PyRet.none, calls0)
  | Option.some open_orders =>
    let buy_limit_orders := matchingOrders "buy" open_orders
    if buy_limit_orders = [] then (PyRet.bool true, calls0)
    else
      let r := cancelLoop cfg cm buy_limit_orders
      (PyRet.bool (decide (0 < r.1)), calls0 ++ r.2.2)

/-- `MultiAccountTrader.execute_cancel_sell_limits` (src/main.py 804-855):
same as the buy variant with `side = "sell"`. -/
def execute_cancel_sell_limits (cfg : Trading) (cm : ClientModel) :
    PyRet × List ClientCall :=
  let calls0 := [ClientCall.listOpenOrders cfg.symbol]
  match cm.openOrders with
  | Option.none => (PyRet.none, calls0)
  | Option.some open_orders =>
    let sell_limit_orders := matchingOrders "sell" open_orders
    if sell_limit_orders = [] then (PyRet.bool true, calls0)
    else
      let r := cancelLoop cfg cm sell_limit_orders
      (PyRet.bool (decide (0 < r.1)), calls0 ++ r.2.2)

/-- `MultiAccountTrader.execute_action` (src/main.py 444-463): dispatch to the
per-action execute; an unknown action yields `None`. -/
def execute_action (action : TradeAction) (cfg : Trading) (ui : UserInputs)
    (cm : ClientModel) : PyRet × List ClientCall :=
  match action with
  | .buy_market => execute_buy_market cfg ui cm
  | .buy_limit => execute_buy_limit cfg ui cm
  | .sell_market => execute_sell_market cfg ui cm
  | .sell_limit => execute_sell_limit cfg ui cm
  | .cancel_buy_limits => execute_cancel_buy_limits cfg cm
  | .cancel_sell_limits => execute_cancel_sell_limits cfg cm

/-- The input-gathering phase of `MultiAccountTrader.trade_all_accounts`
(src/main.py 319-401), run once per batch before the per-account loop.
`firstName`/`firstClient` is the first active account, whose client serves the
reference market-price lookup of the limit actions.  Returns the gathered
`user_inputs` (`none` on a validation abort) and the client calls made. -/
def gatherInputs (action : TradeAction) (cfg : Trading) (replies : Replies)
    (firstName : String) (firstClient : ClientModel) :
    Option UserInputs × List (String × ClientCall) :=
  match action with
  | .buy_market =>
    if cfg.buy_amount = Option.none then
      match replyVal replies.amount (Option.some 0) with
      | Option.none => (Option.none, [])
      | Option.some a => (Option.some ⟨Option.some a, Option.none, Option.none⟩, [])
    else (Option.some ⟨Option.none, Option.none, Option.none⟩, [])
  | .buy_limit =>
    let calls := [(firstName, ClientCall.getPrice cfg.symbol)]
    let amt? : Option (Option ℚ) :=
      if cfg.buy_amount = Option.none then
        match replyVal replies.amount (Option.some 0) with
        | Option.none => Option.none
        | Option.some a => Option.some (Option.some a)
      else Option.some Option.none
    match amt? with
    | Option.none => (Option.none, calls)
    | Option.some amtUi =>
      if priceAbsent cfg.price then
        match replyVal replies.price firstClient.curPrice with
        | Option.none => (Option.none, calls)
        | Option.some p => (Option.some ⟨amtUi, Option.none, Option.some p⟩, calls)
      else (Option.some ⟨amtUi, Option.none, Option.none⟩, calls)
  | .sell_market =>
    if cfg.sell_percentage = Option.none then
      match replyVal replies.percentage (Option.some 100) with
      | Option.none => (Option.none, [])
      | Option.some p =>
        if p ≤ 0 ∨ 100 < p then (Option.none, [])
        else (Option.some ⟨Option.none, Option.some p, Option.none⟩, [])
    else (Option.some ⟨Option.none, Option.none, Option.none⟩, [])
  | .sell_limit =>
    let calls := [(firstName, ClientCall.getPrice cfg.symbol)]
    let pct? : Option (Option ℚ) :=
      if cfg.sell_percentage = Option.none then
        match replyVal replies.percentage (Option.some 100) with
        | Option.none => Option.none
        | Option.some p =>
          if p ≤ 0 ∨ 100 < p then Option.none else Option.some (Option.some p)
      else Option.some Option.none
    match pct? with
    | Option.none => (Option.none, calls)
    | Option.some pctUi =>
      if priceAbsent cfg.price then
        match replyVal replies.price firstClient.curPrice with
        | Option.none => (Option.none, calls)
        | Option.some p => (Option.some ⟨Option.none, pctUi, Option.some p⟩, calls)
      else (Option.some ⟨Option.none, pctUi, Option.none⟩, calls)
  | .cancel_buy_limits => (Option.some ⟨Option.none, Option.none, Option.none⟩, [])
  | .cancel_sell_limits => (Option.some ⟨Option.none, Option.none, Option.none⟩, [])

/-- The `active_accounts` filter of `trade_all_accounts` (src/main.py
311-313). -/
def activeOf (clients : List (String × AccountInfo)) : List (String × AccountInfo) :=
  clients.filter (fun p => p.2.active)

/-- The per-account loop of `trade_all_accounts` (src/main.py 404-424): each
account yields an entry in the result map; an exception from the executor is
caught and recorded as `results[account_name] = None`.  The executor is a
parameter so that the loop's fault isolation can be stated for a throwing
executor; a thrown `Except.error` carries the client calls made before the
fault. -/
def batchLoop
    (exec : String → ClientModel → Except (List ClientCall) (PyRet × List ClientCall)) :
    List (String × AccountInfo) → List (String × PyRet) × List (String × ClientCall)
  | [] => ([], [])
  | (name, info) :: rest =>
    let step :=
      match exec name info.client with
      | Except.ok r => r
      | Except.error cs => (PyRet.none, cs)
    let r := batchLoop exec rest
    ((name, step.1) :: r.1, step.2.map (fun c => (name, c)) ++ r.2)

/-- `MultiAccountTrader.trade_all_accounts` (src/main.py 308-442): filter the
active accounts, gather the batch's user inputs once (returning the empty
result map on a validation abort), then run the per-account loop.  Returns
the result map and the full trace of client calls. -/
def trade_all_accounts (action : TradeAction) (cfg : Trading) (replies : Replies)
    (clients : List (String × AccountInfo)) :
    List (String × PyRet) × List (String × ClientCall) :=
  match activeOf clients with
  | [] => ([], [])
  | (firstName, firstInfo) :: rest =>
    match gatherInputs action cfg replies firstName firstInfo.client with
    | (Option.none, calls) => ([], calls)
    | (Option.some ui, calls) =>
      let r := batchLoop
        (fun _ cm => Except.ok (execute_action action cfg ui cm))
        ((firstName, firstInfo) :: rest)
      (r.1, calls ++ r.2)

/-- The batch summary count
`success_count = len([r for r in results.values() if r])` (src/main.py 427). -/
def successCount (results : List (String × PyRet)) : ℕ :=
  (results.filter (fun p => p.2.truthy)).length

/-- Claim C10: every request built by `place_order` — any side, any order
type — carries `clientOrderId` equal to the decimal string of the submission
time in epoch milliseconds, and a limit order with a missing or non-positive
price yields the `code = -1` error result instead of wire parameters. -/
theorem C10_place_order_spec (now_ms : ℕ) (symbol side orderType : String)
    (quantity : Option Qty) (price : Option ℚ) :
    (∀ wp, place_order now_ms symbol side orderType quantity price = Except.ok wp →
      wp.clientOrderId = toString now_ms) ∧
    (orderType = "limit" → (price = none ∨ ∃ p, price = some p ∧ p ≤ 0) →
      place_order now_ms symbol side orderType quantity price = Except.error (-1)) := by
  constructor
  · intro wp h
    unfold place_order at h
    by_cases hl : orderType = "limit"
    · simp only [hl, if_pos rfl] at h
      match price with
      | Option.none => exact absurd h (by simp)
      | Option.some p =>
        by_cases hp : p ≤ 0
        · simp [hp] at h
        · simp only [if_neg hp] at h
          cases h
          rfl
    · by_cases hm : orderType = "market"
      · simp only [if_neg hl, hm, if_pos rfl] at h
        cases h
        rfl
      · simp only [if_neg hl, if_neg hm] at h
        cases h
        rfl
  · intro hl hp
    unfold place_order
    simp only [hl, if_pos rfl]
    rcases hp with h | ⟨p, hpe, hple⟩
    · simp [h]
    · simp [hpe, if_pos hple]

/-- Witness for C10 at concrete inputs: a market buy request carries the
timestamp string, and a limit order with price 0 is rejected with code -1. -/
theorem C10_place_order_spec_witness :
    ({ symbol := "S", side := "buy", orderType := "market", force := "gtc",
       clientOrderId := toString 5, price := Option.none,
       quantity := Option.some (Qty.num 50) } : WireParams).clientOrderId = toString 5 ∧
    place_order 5 "S" "sell" "limit" (Option.some (Qty.num 1)) (Option.some 0) =
      Except.error (-1) :=
  ⟨(C10_place_order_spec 5 "S" "buy" "market" (Option.some (Qty.num 50)) Option.none).1 _ rfl,
   (C10_place_order_spec 5 "S" "sell" "limit" (Option.some (Qty.num 1)) (Option.some 0)).2
     rfl (Or.inr ⟨0, rfl, le_refl 0⟩)⟩

/-- Claim C1: the sell quantity computed for market and limit sells equals
`available * (pct / 100)` and, for `available ≥ 0` and `pct ∈ (0,100]`, never
exceeds the available balance. -/
theorem C1_sell_sizing (available pct : ℚ) (h0 : 0 ≤ available)
    (h1 : 0 < pct) (h2 : pct ≤ 100) :
    sellQuantity available pct = available * (pct / 100) ∧
    sellQuantity available pct ≤ available := by
  refine ⟨rfl, ?_⟩
  unfold sellQuantity
  exact mul_le_of_le_one_right h0 ((div_le_one (by norm_num)).mpr h2)

/-- Witness for C1 at `available = 2`, `pct = 50`. -/
theorem C1_sell_sizing_witness :
    sellQuantity 2 50 = 2 * (50 / 100) ∧ sellQuantity 2 50 ≤ 2 :=
  C1_sell_sizing 2 50 (by norm_num) (by norm_num) (by norm_num)

/-- Every account appearing in the list fed to the per-account loop receives
an entry in the result map. -/
theorem batchLoop_entry_exists
    (exec : String → ClientModel → Except (List ClientCall) (PyRet × List ClientCall)) :
    ∀ (accounts : List (String × AccountInfo)) (name : String) (info : AccountInfo),
    (name, info) ∈ accounts → ∃ r, (name, r) ∈ (batchLoop exec accounts).1 := by
  intro accounts
  induction accounts with
  | nil => intro name info h; cases h
  | cons hd tl ih =>
    intro name info h
    obtain ⟨n, i⟩ := hd
    rcases List.mem_cons.mp h with heq | hmem
    · obtain ⟨hn, hi⟩ := Prod.mk.injEq .. ▸ heq
      subst hn
      refine ⟨(match exec name i.client with
        | Except.ok r => r
        | Except.error cs => (PyRet.none, cs)).1, ?_⟩
      simp [batchLoop]
    · obtain ⟨r, hr⟩ := ih name info hmem
      exact ⟨r, by simp [batchLoop]; right; exact hr⟩

/-- An account whose execution throws is recorded as `None` in the result
map. -/
theorem batchLoop_none_of_error
    (exec : String → ClientModel → Except (List ClientCall) (PyRet × List ClientCall)) :
    ∀ (accounts : List (String × AccountInfo)) (name : String) (info : AccountInfo)
    (tr : List ClientCall), (name, info) ∈ accounts →
    exec name info.client = Except.error tr →
    (name, PyRet.none) ∈ (batchLoop exec accounts).1 := by
  intro accounts
  induction accounts with
  | nil => intro name info tr h; cases h
  | cons hd tl ih =>
    intro name info tr h herr
    obtain ⟨n, i⟩ := hd
    rcases List.mem_cons.mp h with heq | hmem
    · obtain ⟨hn, hi⟩ := Prod.mk.injEq .. ▸ heq
      subst hn; subst hi
      simp [batchLoop, herr]
    · simp [batchLoop]
      right
      exact ih name info tr hmem herr

/-- Every entry of the loop's result map comes from an account of the list
fed to it. -/
theorem batchLoop_mem_inv
    (exec : String → ClientModel → Except (List ClientCall) (PyRet × List ClientCall)) :
    ∀ (accounts : List (String × AccountInfo)) (name : String) (r : PyRet),
    (name, r) ∈ (batchLoop exec accounts).1 → ∃ info, (name, info) ∈ accounts := by
  intro accounts
  induction accounts with
  | nil => intro name r h; cases h
  | cons hd tl ih =>
    intro name r h
    obtain ⟨n, i⟩ := hd
    simp [batchLoop] at h
    rcases h with ⟨hn, _⟩ | hmem
    · exact ⟨i, by simp [hn]⟩
    · obtain ⟨info, hinfo⟩ := ih name r hmem
      exact ⟨info, by simp [hinfo]⟩

/-- Claim C4: in the per-account loop, an account whose execution raises is
recorded as the `None` (failure) outcome, and every account after it still
receives an outcome — one account's fault never aborts the batch. -/
theorem C4_batch_isolation
    (exec : String → ClientModel → Except (List ClientCall) (PyRet × List ClientCall))
    (l₁ l₂ l₃ : List (String × AccountInfo)) (A B : String) (iA iB : AccountInfo)
    (tr : List ClientCall) (herr : exec A iA.client = Except.error tr) :
    (A, PyRet.none) ∈ (batchLoop exec (l₁ ++ (A, iA) :: l₂ ++ (B, iB) :: l₃)).1 ∧
    ∃ r, (B, r) ∈ (batchLoop exec (l₁ ++ (A, iA) :: l₂ ++ (B, iB) :: l₃)).1 := by
  constructor
  · exact batchLoop_none_of_error exec _ A iA tr (by simp) herr
  · exact batchLoop_entry_exists exec _ B iB (by simp)

/-- Witness for C4: a two-account batch where the first account's executor
throws; the first is recorded as `None` and the second still has an entry. -/
theorem C4_batch_isolation_witness :
    ("A", PyRet.none) ∈
      (batchLoop
        (fun n _ => if n = "A" then Except.error [] else Except.ok (PyRet.bool true, []))
        ([] ++ ("A", ⟨⟨Option.none, Option.none, "", "", Option.none, fun _ => ""⟩, true⟩) ::
          [] ++ ("B", ⟨⟨Option.none, Option.none, "", "", Option.none, fun _ => ""⟩, true⟩) ::
          [])).1 ∧
    ∃ r, ("B", r) ∈
      (batchLoop
        (fun n _ => if n = "A" then Except.error [] else Except.ok (PyRet.bool true, []))
        ([] ++ ("A", ⟨⟨Option.none, Option.none, "", "", Option.none, fun _ => ""⟩, true⟩) ::
          [] ++ ("B", ⟨⟨Option.none, Option.none, "", "", Option.none, fun _ => ""⟩, true⟩) ::
          [])).1 :=
  C4_batch_isolation
    (fun n _ => if n = "A" then Except.error [] else Except.ok (PyRet.bool true, []))
    [] [] [] "A" "B"
    ⟨⟨Option.none, Option.none, "", "", Option.none, fun _ => ""⟩, true⟩
    ⟨⟨Option.none, Option.none, "", "", Option.none, fun _ => ""⟩, true⟩
    [] (by simp)

/-- Claim C5: every key of a batch's result map belongs to an account whose
`active` flag is true; inactive accounts never appear. -/
theorem C5_inactive_excluded (action : TradeAction) (cfg : Trading) (replies : Replies)
    (clients : List (String × AccountInfo)) (name : String) (r : PyRet)
    (h : (name, r) ∈ (trade_all_accounts action cfg replies clients).1) :
    ∃ info, (name, info) ∈ clients ∧ info.active = true := by
  unfold trade_all_accounts at h
  split at h
  · cases h
  · rename_i firstName firstInfo rest heq
    split at h
    · cases h
    · simp only at h
      obtain ⟨info, hmem⟩ := batchLoop_mem_inv _ _ _ _ h
      rw [← heq] at hmem
      unfold activeOf at hmem
      have hf := List.mem_filter.mp hmem
      exact ⟨info, hf.1, by simpa using hf.2⟩

/-- Witness for C5: a batch over one active and one inactive account; the
active account's result entry traces back to an account with `active =
true`. -/
theorem C5_inactive_excluded_witness :
    ∃ info,
      ("a", info) ∈
        [("a", (⟨⟨Option.none, Option.none, "00000", "oid", Option.none, fun _ => ""⟩,
          true⟩ : AccountInfo)),
         ("b", (⟨⟨Option.none, Option.none, "00000", "oid", Option.none, fun _ => ""⟩,
          false⟩ : AccountInfo))] ∧
      info.active = true :=
  C5_inactive_excluded TradeAction.buy_market
    ⟨"S", "C", "Q", Option.some 5, Option.none, Option.none⟩
    ⟨Reply.empty, Reply.empty, Reply.empty⟩
    [("a", ⟨⟨Option.none, Option.none, "00000", "oid", Option.none, fun _ => ""⟩, true⟩),
     ("b", ⟨⟨Option.none, Option.none, "00000", "oid", Option.none, fun _ => ""⟩, false⟩)]
    "a" (PyRet.str "oid") (by decide)

/-- Every client call made by the input-gathering phase is a market-price
lookup: no balance query, no placement, no listing, no cancellation. -/
theorem gatherInputs_calls_getPrice (action : TradeAction) (cfg : Trading)
    (replies : Replies) (firstName : String) (firstClient : ClientModel) :
    ∀ p ∈ (gatherInputs action cfg replies firstName firstClient).2,
      p.2 = ClientCall.getPrice cfg.symbol := by
  intro p hp
  cases action <;>
    · unfold gatherInputs at hp
      repeat' split at hp
      all_goals simp_all

/-- Claim C3 (amended): only the interactively gathered parameters are
validated at batch level.  Whenever the input-gathering phase fails — a
non-numeric reply, or an interactive sell percentage outside `(0,100]` — the
batch returns the empty result map and the only client calls made are the
reference market-price lookups: no balance query, no placement, no listing,
no cancellation on any account.  (Configured invalid values are instead
rejected per account during execution, see the counterexample.) -/
theorem C3_amended_abort (action : TradeAction) (cfg : Trading) (replies : Replies)
    (clients : List (String × AccountInfo)) (firstName : String)
    (firstInfo : AccountInfo) (rest : List (String × AccountInfo))
    (calls : List (String × ClientCall))
    (hact : activeOf clients = (firstName, firstInfo) :: rest)
    (hg : gatherInputs action cfg replies firstName firstInfo.client =
      (Option.none, calls)) :
    trade_all_accounts action cfg replies clients = ([], calls) ∧
    ∀ p ∈ calls, p.2 = ClientCall.getPrice cfg.symbol := by
  constructor
  · unfold trade_all_accounts
    rw [hact]
    dsimp only
    rw [hg]
  · intro p hp
    have h := gatherInputs_calls_getPrice action cfg replies firstName firstInfo.client p
    rw [hg] at h
    exact h hp

/-- Witness for C3 (amended): a market-sell batch whose interactive
percentage reply is 150 aborts with the empty result map and no client
calls. -/
theorem C3_amended_abort_witness :
    trade_all_accounts TradeAction.sell_market
      ⟨"S", "C", "Q", Option.none, Option.none, Option.none⟩
      ⟨Reply.empty, Reply.numeric 150, Reply.empty⟩
      [("a", ⟨⟨Option.some [⟨"C", 5⟩], Option.none, "00000", "oid", Option.none,
        fun _ => ""⟩, true⟩)] = ([], []) ∧
    ∀ p ∈ ([] : List (String × ClientCall)),
      p.2 = ClientCall.getPrice (Trading.symbol ⟨"S", "C", "Q", Option.none,
        Option.none, Option.none⟩) :=
  C3_amended_abort TradeAction.sell_market
    ⟨"S", "C", "Q", Option.none, Option.none, Option.none⟩
    ⟨Reply.empty, Reply.numeric 150, Reply.empty⟩
    [("a", ⟨⟨Option.some [⟨"C", 5⟩], Option.none, "00000", "oid", Option.none,
      fun _ => ""⟩, true⟩)]
    "a"
    ⟨⟨Option.some [⟨"C", 5⟩], Option.none, "00000", "oid", Option.none, fun _ => ""⟩,
      true⟩
    [] [] rfl rfl

/-- Counterexample to claim C3 as stated: with a configured (not interactive)
`sell_percentage = 150`, which is outside `(0,100]`, a market-sell batch does
NOT return a validation error before contacting accounts — the account's
balance is queried, and the batch ends with a per-account `None` failure
entry rather than an aborted empty result map. -/
theorem C3_cex :
    resolve2 Option.none (Option.some 150) = Option.some (150 : ℚ) ∧
    ¬ (0 < (150 : ℚ) ∧ (150 : ℚ) ≤ 100) ∧
    ("a", ClientCall.getAssets "C") ∈
      (trade_all_accounts TradeAction.sell_market
        ⟨"S", "C", "Q", Option.none, Option.some 150, Option.none⟩
        ⟨Reply.empty, Reply.empty, Reply.empty⟩
        [("a", ⟨⟨Option.some [⟨"C", 5⟩], Option.none, "00000", "oid", Option.none,
          fun _ => ""⟩, true⟩)]).2 ∧
    (trade_all_accounts TradeAction.sell_market
        ⟨"S", "C", "Q", Option.none, Option.some 150, Option.none⟩
        ⟨Reply.empty, Reply.empty, Reply.empty⟩
        [("a", ⟨⟨Option.some [⟨"C", 5⟩], Option.none, "00000", "oid", Option.none,
          fun _ => ""⟩, true⟩)]).1 = [("a", PyRet.none)] := by
  refine ⟨rfl, by norm_num, ?_, ?_⟩ <;> decide

/-- Claim C8 (amended): a sell on an account whose available balance is `<= 0`
makes no placement and returns `None` — the very value a hard failure
produces — and the batch summary counts it among the failures (it is not
truthy, so it is excluded from `success_count`). -/
theorem C8_amended_no_balance (cfg : Trading) (ui : UserInputs) (cm : ClientModel)
    (l : List Asset) (h1 : cm.assets = Option.some l) (h2 : l ≠ [])
    (h3 : findAvailable l cfg.coin ≤ 0) :
    execute_sell_market cfg ui cm = (PyRet.none, [ClientCall.getAssets cfg.coin]) ∧
    execute_sell_limit cfg ui cm = (PyRet.none, [ClientCall.getAssets cfg.coin]) ∧
    PyRet.truthy PyRet.none = false ∧
    successCount [("a", PyRet.none)] = 0 := by
  refine ⟨?_, ?_, rfl, rfl⟩
  · unfold execute_sell_market
    rw [h1]
    dsimp only
    rw [if_neg h2, if_pos h3]
  · unfold execute_sell_limit
    rw [h1]
    dsimp only
    rw [if_neg h2, if_pos h3]

/-- Witness for C8 (amended) at a concrete zero-balance account. -/
theorem C8_amended_no_balance_witness :
    execute_sell_market ⟨"S", "C", "Q", Option.none, Option.some 50, Option.none⟩
      ⟨Option.none, Option.none, Option.none⟩
      ⟨Option.some [⟨"C", 0⟩], Option.none, "00000", "oid", Option.none, fun _ => ""⟩ =
      (PyRet.none, [ClientCall.getAssets "C"]) ∧
    execute_sell_limit ⟨"S", "C", "Q", Option.none, Option.some 50, Option.none⟩
      ⟨Option.none, Option.none, Option.none⟩
      ⟨Option.some [⟨"C", 0⟩], Option.none, "00000", "oid", Option.none, fun _ => ""⟩ =
      (PyRet.none, [ClientCall.getAssets "C"]) ∧
    PyRet.truthy PyRet.none = false ∧
    successCount [("a", PyRet.none)] = 0 :=
  C8_amended_no_balance ⟨"S", "C", "Q", Option.none, Option.some 50, Option.none⟩
    ⟨Option.none, Option.none, Option.none⟩
    ⟨Option.some [⟨"C", 0⟩], Option.none, "00000", "oid", Option.none, fun _ => ""⟩
    [⟨"C", 0⟩] rfl (by decide) (by norm_num [findAvailable])

/-- Counterexample to claim C8 as stated: the zero-balance outcome of a sell
is `None`, exactly the value returned by a hard API failure on the same
action, and the summary counts it as a failure (`success_count = 0`), so it
is not a distinct skipped outcome. -/
theorem C8_cex :
    (execute_sell_market ⟨"S", "C", "Q", Option.none, Option.some 50, Option.none⟩
      ⟨Option.none, Option.none, Option.none⟩
      ⟨Option.some [⟨"C", 0⟩], Option.none, "00000", "oid", Option.none,
        fun _ => ""⟩).1 = PyRet.none ∧
    (execute_sell_market ⟨"S", "C", "Q", Option.none, Option.some 50, Option.none⟩
      ⟨Option.none, Option.none, Option.none⟩
      ⟨Option.some [⟨"C", 5⟩], Option.some 3, "43009", "oid", Option.none,
        fun _ => ""⟩).1 = PyRet.none ∧
    successCount [("a", PyRet.none)] = 0 := by
  decide

/-- The cancellation loop's cancelled count is positive exactly when some
order in the list cancels with the success code. -/
theorem cancelLoop_pos_iff (cfg : Trading) (cm : ClientModel) :
    ∀ l : List OpenOrder,
      0 < (cancelLoop cfg cm l).1 ↔ ∃ o ∈ l, cm.cancelCode o.orderId = "00000" := by
  intro l
  induction l with
  | nil => simp [cancelLoop]
  | cons o rest ih =>
    by_cases hc : cm.cancelCode o.orderId = "00000"
    · simp [cancelLoop, hc]
    · simp [cancelLoop, hc, ih]

/-- Every order fed to the cancellation loop receives a cancel call, no
matter how earlier cancellations fared. -/
theorem cancelLoop_calls (cfg : Trading) (cm : ClientModel) :
    ∀ (l : List OpenOrder) (o : OpenOrder), o ∈ l →
      ClientCall.cancelOrder cfg.symbol o.orderId ∈ (cancelLoop cfg cm l).2.2 := by
  intro l
  induction l with
  | nil => intro o h; cases h
  | cons hd rest ih =>
    intro o h
    rcases List.mem_cons.mp h with heq | hmem
    · subst heq
      by_cases hc : cm.cancelCode o.orderId = "00000" <;> simp [cancelLoop, hc]
    · by_cases hc : cm.cancelCode hd.orderId = "00000" <;>
        simp [cancelLoop, hc, ih o hmem]

/-- Claim C9 (amended): a cancel execute returns `None` exactly when the
open-orders listing fails; `True` when no order matches `{side, limit}`;
otherwise it cancels every matching order — continuing past individual
failures — and returns `bool (some cancellation succeeded)`, which is `False`
(also counted as a failure by the summary) when every cancellation failed
even though the listing succeeded. -/
theorem C9_amended_cancel (cfg : Trading) (cm : ClientModel) :
    (cm.openOrders = Option.none →
      execute_cancel_buy_limits cfg cm =
        (PyRet.none, [ClientCall.listOpenOrders cfg.symbol]) ∧
      execute_cancel_sell_limits cfg cm =
        (PyRet.none, [ClientCall.listOpenOrders cfg.symbol])) ∧
    (∀ l, cm.openOrders = Option.some l →
      (matchingOrders "buy" l = [] →
        execute_cancel_buy_limits cfg cm =
          (PyRet.bool true, [ClientCall.listOpenOrders cfg.symbol])) ∧
      (matchingOrders "buy" l ≠ [] →
        (execute_cancel_buy_limits cfg cm).1 =
          PyRet.bool (decide (∃ o ∈ matchingOrders "buy" l,
            cm.cancelCode o.orderId = "00000")) ∧
        ∀ o ∈ matchingOrders "buy" l,
          ClientCall.cancelOrder cfg.symbol o.orderId ∈
            (execute_cancel_buy_limits cfg cm).2) ∧
      (matchingOrders "sell" l = [] →
        execute_cancel_sell_limits cfg cm =
          (PyRet.bool true, [ClientCall.listOpenOrders cfg.symbol])) ∧
      (matchingOrders "sell" l ≠ [] →
        (execute_cancel_sell_limits cfg cm).1 =
          PyRet.bool (decide (∃ o ∈ matchingOrders "sell" l,
            cm.cancelCode o.orderId = "00000")) ∧
        ∀ o ∈ matchingOrders "sell" l,
          ClientCall.cancelOrder cfg.symbol o.orderId ∈
            (execute_cancel_sell_limits cfg cm).2)) := by
  constructor
  · intro h
    constructor
    · unfold execute_cancel_buy_limits
      rw [h]
    · unfold execute_cancel_sell_limits
      rw [h]
  · intro l hl
    refine ⟨?_, ?_, ?_, ?_⟩
    · intro hm
      unfold execute_cancel_buy_limits
      rw [hl]
      dsimp only
      rw [if_pos hm]
    · intro hm
      constructor
      · unfold execute_cancel_buy_limits
        rw [hl]
        dsimp only
        rw [if_neg hm]
        dsimp only
        congr 1
        exact decide_eq_decide.mpr (cancelLoop_pos_iff cfg cm _)
      · intro o ho
        unfold execute_cancel_buy_limits
        rw [hl]
        dsimp only
        rw [if_neg hm]
        dsimp only
        exact List.mem_append_right _ (cancelLoop_calls cfg cm _ o ho)
    · intro hm
      unfold execute_cancel_sell_limits
      rw [hl]
      dsimp only
      rw [if_pos hm]
    · intro hm
      constructor
      · unfold execute_cancel_sell_limits
        rw [hl]
        dsimp only
        rw [if_neg hm]
        dsimp only
        congr 1
        exact decide_eq_decide.mpr (cancelLoop_pos_iff cfg cm _)
      · intro o ho
        unfold execute_cancel_sell_limits
        rw [hl]
        dsimp only
        rw [if_neg hm]
        dsimp only
        exact List.mem_append_right _ (cancelLoop_calls cfg cm _ o ho)

/-- Witness for C9 (amended): one open buy-limit order whose cancellation
succeeds; the outcome is `bool true` and the order received a cancel call. -/
theorem C9_amended_cancel_witness :
    (execute_cancel_buy_limits ⟨"S", "C", "Q", Option.none, Option.none, Option.none⟩
      ⟨Option.none, Option.none, "", "", Option.some [⟨"o1", "buy", "limit", "1", "2"⟩],
        fun _ => "00000"⟩).1 =
      PyRet.bool (decide (∃ o ∈ matchingOrders "buy" [⟨"o1", "buy", "limit", "1", "2"⟩],
        (fun (_ : String) => "00000") o.orderId = "00000")) ∧
    ∀ o ∈ matchingOrders "buy" [⟨"o1", "buy", "limit", "1", "2"⟩],
      ClientCall.cancelOrder "S" o.orderId ∈
        (execute_cancel_buy_limits ⟨"S", "C", "Q", Option.none, Option.none, Option.none⟩
          ⟨Option.none, Option.none, "", "", Option.some [⟨"o1", "buy", "limit", "1", "2"⟩],
            fun _ => "00000"⟩).2 :=
  ((C9_amended_cancel ⟨"S", "C", "Q", Option.none, Option.none, Option.none⟩
    ⟨Option.none, Option.none, "", "", Option.some [⟨"o1", "buy", "limit", "1", "2"⟩],
      fun _ => "00000"⟩).2 [⟨"o1", "buy", "limit", "1", "2"⟩] rfl).2.1 (by decide)

/-- Counterexample to claim C9 as stated: one open buy-limit order whose
cancellation fails — the listing succeeded, yet the outcome is `bool false`,
which the summary counts as a failure, so "Failure only if the open-orders
listing itself failed" does not hold. -/
theorem C9_cex :
    (execute_cancel_buy_limits ⟨"S", "C", "Q", Option.none, Option.none, Option.none⟩
      ⟨Option.none, Option.none, "", "", Option.some [⟨"o1", "buy", "limit", "1", "2"⟩],
        fun _ => "43001"⟩).1 = PyRet.bool false ∧
    PyRet.truthy (PyRet.bool false) = false ∧
    (Option.some [(⟨"o1", "buy", "limit", "1", "2"⟩ : OpenOrder)] :
      Option (List OpenOrder)) ≠ Option.none := by
  decide

/-- Claim C2 (amended): the `int(quantity) if quantity >= 1 else
format_quantity_for_api(quantity)` rule (`apiQty`) governs only the sell
placements.  A market buy sends the raw resolved quote amount and a limit buy
sends the raw `buy_amount / price`; the formatted quantity computed in the
limit-buy path is never used. -/
theorem C2_amended_qty_rule (cfg : Trading) (ui : UserInputs) (cm : ClientModel)
    (sym side ot : String) (qq : Qty) (pp : Option ℚ) :
    (ClientCall.placeOrder sym side ot qq pp ∈ (execute_sell_market cfg ui cm).2 →
      ∃ l sp, cm.assets = Option.some l ∧
        resolve2 ui.sell_percentage cfg.sell_percentage = Option.some sp ∧
        qq = apiQty (sellQuantity (findAvailable l cfg.coin) sp)) ∧
    (ClientCall.placeOrder sym side ot qq pp ∈ (execute_sell_limit cfg ui cm).2 →
      ∃ l sp, cm.assets = Option.some l ∧
        resolve2 ui.sell_percentage cfg.sell_percentage = Option.some sp ∧
        qq = apiQty (sellQuantity (findAvailable l cfg.coin) sp)) ∧
    (ClientCall.placeOrder sym side ot qq pp ∈ (execute_buy_market cfg ui cm).2 →
      ∃ a, resolve2 ui.buy_amount cfg.buy_amount = Option.some a ∧
        qq = Qty.num a) ∧
    (ClientCall.placeOrder sym side ot qq pp ∈ (execute_buy_limit cfg ui cm).2 →
      ∃ a, resolve2 ui.buy_amount cfg.buy_amount = Option.some a ∧
        qq = Qty.num (a / resolve_price ui.price cfg.price (Option.getD cm.curPrice 0))) := by
  refine ⟨?_, ?_, ?_, ?_⟩
  · intro h
    unfold execute_sell_market at h
    repeat' split at h
    all_goals simp_all
    all_goals (repeat' split at h)
    all_goals simp_all
  · intro h
    unfold execute_sell_limit at h
    repeat' split at h
    all_goals simp_all
    all_goals (repeat' split at h)
    all_goals simp_all
  · intro h
    unfold execute_buy_market at h
    repeat' split at h
    all_goals simp_all
  · intro h
    unfold execute_buy_limit at h
    repeat' split at h
    all_goals simp_all [resolve_price]
    all_goals (repeat' split at h)
    all_goals simp_all
    all_goals (split <;> try simp_all)
    all_goals linarith

/-- Witness for C2 (amended): a concrete market sell placing
`apiQty (sellQuantity 5 50)` as quantity. -/
theorem C2_amended_qty_rule_witness :
    ∃ l sp,
      (⟨Option.some [⟨"C", 5⟩], Option.some 3, "00000", "oid", Option.none,
        fun _ => ""⟩ : ClientModel).assets = Option.some l ∧
      resolve2 Option.none (Option.some 50) = Option.some sp ∧
      apiQty (sellQuantity 5 50) = apiQty (sellQuantity (findAvailable l "C") sp) :=
  (C2_amended_qty_rule ⟨"S", "C", "Q", Option.none, Option.some 50, Option.none⟩
    ⟨Option.none, Option.none, Option.none⟩
    ⟨Option.some [⟨"C", 5⟩], Option.some 3, "00000", "oid", Option.none, fun _ => ""⟩
    "S" "sell" "market" (apiQty (sellQuantity 5 50)) Option.none).1
    (by with_unfolding_all decide)

/-- Counterexample to claim C2 as stated: a market buy with resolved amount 50
sends the raw float 50 as quantity, which is neither the integer truncation
(required by the claim since `50 ≥ 1`) nor the formatter's output. -/
theorem C2_cex :
    (execute_buy_market ⟨"S", "C", "Q", Option.some 50, Option.none, Option.none⟩
      ⟨Option.none, Option.none, Option.none⟩
      ⟨Option.none, Option.none, "00000", "oid", Option.none, fun _ => ""⟩).2 =
      [ClientCall.placeOrder "S" "buy" "market" (Qty.num 50) Option.none] ∧
    (1 : ℚ) ≤ 50 ∧
    Qty.num 50 ≠ Qty.int (pyInt 50) ∧
    Qty.num 50 ≠ Qty.str (format_quantity_for_api (PyVal.num 50)) := by
  with_unfolding_all decide

/-- Every client call in the per-account phase of a batch trace belongs to
some account of the list and to that account's own execution. -/
theorem batchLoop_trace_mem (action : TradeAction) (cfg : Trading) (ui : UserInputs) :
    ∀ (accounts : List (String × AccountInfo)) (name : String) (c : ClientCall),
    (name, c) ∈
      (batchLoop (fun _ cm => Except.ok (execute_action action cfg ui cm)) accounts).2 →
    ∃ info, (name, info) ∈ accounts ∧
      c ∈ (execute_action action cfg ui info.client).2 := by
  intro accounts
  induction accounts with
  | nil => intro name c h; cases h
  | cons hd tl ih =>
    intro name c h
    obtain ⟨n, i⟩ := hd
    simp [batchLoop] at h
    rcases h with ⟨hn, hc⟩ | hmem
    · subst hc
      exact ⟨i, List.mem_cons_self _ _, hn⟩
    · obtain ⟨info, hinfo, hc⟩ := ih name c hmem
      exact ⟨info, by simp [hinfo], hc⟩

/-- Every limit-buy placement carries the price resolved by the
`user_inputs` / configured / fallback chain. -/
theorem execute_buy_limit_price (cfg : Trading) (ui : UserInputs) (cm : ClientModel)
    (sym side ot : String) (qq : Qty) (pp : Option ℚ) :
    ClientCall.placeOrder sym side ot qq pp ∈ (execute_buy_limit cfg ui cm).2 →
    pp = Option.some (resolve_price ui.price cfg.price (Option.getD cm.curPrice 0)) := by
  intro h
  unfold execute_buy_limit at h
  repeat' split at h
  all_goals simp_all [resolve_price]
  all_goals (repeat' split at h)
  all_goals simp_all
  all_goals (split <;> try simp_all)
  all_goals linarith

/-- Every limit-sell placement carries the price resolved by the
`user_inputs` / configured / fallback chain. -/
theorem execute_sell_limit_price (cfg : Trading) (ui : UserInputs) (cm : ClientModel)
    (sym side ot : String) (qq : Qty) (pp : Option ℚ) :
    ClientCall.placeOrder sym side ot qq pp ∈ (execute_sell_limit cfg ui cm).2 →
    pp = Option.some (resolve_price ui.price cfg.price (Option.getD cm.curPrice 0)) := by
  intro h
  unfold execute_sell_limit at h
  repeat' split at h
  all_goals simp_all
  all_goals (repeat' split at h)
  all_goals simp_all

/-- A configured price that is not "absent" is present and positive. -/
theorem priceAbsent_false (cfgp : Option ℚ) (h : priceAbsent cfgp = false) :
    ∃ p, cfgp = Option.some p ∧ 0 < p := by
  cases cfgp with
  | none => simp [priceAbsent] at h
  | some p =>
    refine ⟨p, rfl, ?_⟩
    simp [priceAbsent] at h
    linarith

/-- When the gathering phase of a limit action succeeds, either it stored an
interactive price in `user_inputs` or the configuration carries a positive
price. -/
theorem gather_price_invariant (action : TradeAction) (cfg : Trading)
    (replies : Replies) (firstName : String) (firstClient : ClientModel)
    (ui : UserInputs) (calls : List (String × ClientCall))
    (hact : action = TradeAction.buy_limit ∨ action = TradeAction.sell_limit)
    (hg : gatherInputs action cfg replies firstName firstClient =
      (Option.some ui, calls)) :
    (∃ p, ui.price = Option.some p) ∨ ∃ p, cfg.price = Option.some p ∧ 0 < p := by
  rcases hact with hact | hact <;>
    · subst hact
      unfold gatherInputs at hg
      repeat' split at hg
      all_goals simp_all
      all_goals
        first
        | exact priceAbsent_false _ (by assumption)
        | (right; exact priceAbsent_false _ (by assumption))
        | (obtain ⟨hui, -⟩ := hg
           subst hui
           left
           exact ⟨_, rfl⟩)

/-- Under the gathering invariant the resolved price does not depend on the
fallback, hence not on which account's client supplies it. -/
theorem resolve_price_indep (uip cfgp : Option ℚ)
    (h : (∃ p, uip = Option.some p) ∨ ∃ p, cfgp = Option.some p ∧ 0 < p) :
    ∀ fb fb', resolve_price uip cfgp fb = resolve_price uip cfgp fb' := by
  intro fb fb'
  rcases h with ⟨p, hp⟩ | ⟨p, hp, hpos⟩
  · simp [resolve_price, hp]
  · cases huip : uip with
    | some v => simp [resolve_price, huip]
    | none => simp [resolve_price, huip, hp, if_pos hpos]

/-- Claim C7: trading parameters are resolved by first-match-wins precedence
— the batch's `user_inputs` value, else the configured value (a configured
price `<= 0` counting as absent), else the fallback — and all accounts of one
batch use the same resolved value: every limit placement of the batch carries
one common price `P` independent of the per-account market-price fallback,
and amount/percentage resolution depends only on the shared inputs. -/
theorem C7_param_resolution (action : TradeAction) (cfg : Trading)
    (replies : Replies) (clients : List (String × AccountInfo))
    (firstName : String) (firstInfo : AccountInfo)
    (rest : List (String × AccountInfo)) (ui : UserInputs)
    (calls : List (String × ClientCall))
    (hact2 : action = TradeAction.buy_limit ∨ action = TradeAction.sell_limit)
    (hactive : activeOf clients = (firstName, firstInfo) :: rest)
    (hg : gatherInputs action cfg replies firstName firstInfo.client =
      (Option.some ui, calls)) :
    ∃ P,
      (ui.price = Option.some P ∨
        (ui.price = Option.none ∧ cfg.price = Option.some P ∧ 0 < P)) ∧
      (∀ fb, resolve_price ui.price cfg.price fb = P) ∧
      (∀ name sym side ot qq pp,
        (name, ClientCall.placeOrder sym side ot qq pp) ∈
          (trade_all_accounts action cfg replies clients).2 →
        pp = Option.some P) ∧
      (∀ a, ui.buy_amount = Option.some a →
        resolve2 ui.buy_amount cfg.buy_amount = Option.some a) ∧
      (ui.buy_amount = Option.none →
        resolve2 ui.buy_amount cfg.buy_amount = cfg.buy_amount) ∧
      (∀ a, ui.sell_percentage = Option.some a →
        resolve2 ui.sell_percentage cfg.sell_percentage = Option.some a) ∧
      (ui.sell_percentage = Option.none →
        resolve2 ui.sell_percentage cfg.sell_percentage = cfg.sell_percentage) := by
  have hinv := gather_price_invariant action cfg replies firstName firstInfo.client
    ui calls hact2 hg
  have hfb : ∀ fb, resolve_price ui.price cfg.price fb =
      resolve_price ui.price cfg.price 0 :=
    fun fb => resolve_price_indep ui.price cfg.price hinv fb 0
  refine ⟨resolve_price ui.price cfg.price 0, ?_, hfb, ?_, ?_, ?_, ?_, ?_⟩
  · cases hui : ui.price with
    | some v =>
      left
      simp [resolve_price, hui]
    | none =>
      rcases hinv with ⟨p, hp⟩ | ⟨p, hp, hpos⟩
      · rw [hui] at hp
        cases hp
      · right
        refine ⟨rfl, ?_, ?_⟩ <;> simp [resolve_price, hui, hp, if_pos hpos, hpos]
  · intro name sym side ot qq pp hmem
    unfold trade_all_accounts at hmem
    rw [hactive] at hmem
    dsimp only at hmem
    rw [hg] at hmem
    dsimp only at hmem
    rcases List.mem_append.mp hmem with hmem1 | hmem2
    · have hgp := gatherInputs_calls_getPrice action cfg replies firstName
        firstInfo.client
      rw [hg] at hgp
      have := hgp _ hmem1
      simp at this
    · obtain ⟨info, -, hc⟩ := batchLoop_trace_mem action cfg ui _ name _ hmem2
      rcases hact2 with hact | hact <;>
        · subst hact
          simp only [execute_action] at hc
          first
          | (rw [execute_buy_limit_price cfg ui info.client sym side ot qq pp hc,
               hfb])
          | (rw [execute_sell_limit_price cfg ui info.client sym side ot qq pp hc,
               hfb])
  · intro a ha
    simp [resolve2, ha]
  · intro ha
    simp [resolve2, ha]
  · intro a ha
    simp [resolve2, ha]
  · intro ha
    simp [resolve2, ha]

/-- Witness for C7: a limit-sell batch with configured percentage 50 and
configured positive price 7 resolves one shared price for the whole batch. -/
theorem C7_param_resolution_witness :
    ∃ P,
      ((⟨Option.none, Option.none, Option.none⟩ : UserInputs).price = Option.some P ∨
        ((⟨Option.none, Option.none, Option.none⟩ : UserInputs).price = Option.none ∧
          (⟨"S", "C", "Q", Option.none, Option.some 50, Option.some 7⟩ :
            Trading).price = Option.some P ∧ 0 < P)) ∧
      (∀ fb, resolve_price
        (⟨Option.none, Option.none, Option.none⟩ : UserInputs).price
        (⟨"S", "C", "Q", Option.none, Option.some 50, Option.some 7⟩ :
          Trading).price fb = P) ∧
      (∀ name sym side ot qq pp,
        (name, ClientCall.placeOrder sym side ot qq pp) ∈
          (trade_all_accounts TradeAction.sell_limit
            ⟨"S", "C", "Q", Option.none, Option.some 50, Option.some 7⟩
            ⟨Reply.empty, Reply.empty, Reply.empty⟩
            [("a", ⟨⟨Option.some [⟨"C", 5⟩], Option.some 3, "00000", "oid",
              Option.none, fun _ => ""⟩, true⟩)]).2 →
        pp = Option.some P) ∧
      (∀ a, (⟨Option.none, Option.none, Option.none⟩ : UserInputs).buy_amount =
          Option.some a →
        resolve2 (⟨Option.none, Option.none, Option.none⟩ : UserInputs).buy_amount
          (⟨"S", "C", "Q", Option.none, Option.some 50, Option.some 7⟩ :
            Trading).buy_amount = Option.some a) ∧
      ((⟨Option.none, Option.none, Option.none⟩ : UserInputs).buy_amount =
          Option.none →
        resolve2 (⟨Option.none, Option.none, Option.none⟩ : UserInputs).buy_amount
          (⟨"S", "C", "Q", Option.none, Option.some 50, Option.some 7⟩ :
            Trading).buy_amount =
          (⟨"S", "C", "Q", Option.none, Option.some 50, Option.some 7⟩ :
            Trading).buy_amount) ∧
      (∀ a, (⟨Option.none, Option.none, Option.none⟩ : UserInputs).sell_percentage =
          Option.some a →
        resolve2
          (⟨Option.none, Option.none, Option.none⟩ : UserInputs).sell_percentage
          (⟨"S", "C", "Q", Option.none, Option.some 50, Option.some 7⟩ :
            Trading).sell_percentage = Option.some a) ∧
      ((⟨Option.none, Option.none, Option.none⟩ : UserInputs).sell_percentage =
          Option.none →
        resolve2
          (⟨Option.none, Option.none, Option.none⟩ : UserInputs).sell_percentage
          (⟨"S", "C", "Q", Option.none, Option.some 50, Option.some 7⟩ :
            Trading).sell_percentage =
          (⟨"S", "C", "Q", Option.none, Option.some 50, Option.some 7⟩ :
            Trading).sell_percentage) :=
  C7_param_resolution TradeAction.sell_limit
    ⟨"S", "C", "Q", Option.none, Option.some 50, Option.some 7⟩
    ⟨Reply.empty, Reply.empty, Reply.empty⟩
    [("a", ⟨⟨Option.some [⟨"C", 5⟩], Option.some 3, "00000", "oid", Option.none,
      fun _ => ""⟩, true⟩)]
    "a"
    ⟨⟨Option.some [⟨"C", 5⟩], Option.some 3, "00000", "oid", Option.none,
      fun _ => ""⟩, true⟩
    [] ⟨Option.none, Option.none, Option.none⟩ [("a", ClientCall.getPrice "S")]
    (Or.inr rfl) rfl (by with_unfolding_all decide)

/-- Elements surviving `dropWhile` come from the original list. -/
theorem mem_of_mem_dwhile {α : Type} (p : α → Bool) :
    ∀ (l : List α) (a : α), a ∈ l.dropWhile p → a ∈ l := by
  intro l
  induction l with
  | nil => intro a h; cases h
  | cons x xs ih =>
    intro a h
    rw [List.dropWhile_cons] at h
    by_cases hx : p x = true
    · simp [hx] at h
      exact List.mem_cons_of_mem x (ih a h)
    · simp [hx] at h
      simpa using h

/-- `dropWhile` never lengthens a list. -/
theorem dwhile_length_le {α : Type} (p : α → Bool) :
    ∀ l : List α, (l.dropWhile p).length ≤ l.length := by
  intro l
  induction l with
  | nil => simp
  | cons x xs ih =>
    rw [List.dropWhile_cons]
    by_cases hx : p x = true
    · simp [hx]
      exact Nat.le_succ_of_le ih
    · simp [hx]

/-- `dropWhile` stops no later than an element falsifying the predicate. -/
theorem dwhile_append_neg {α : Type} (p : α → Bool) (a : α) (h : p a = false) :
    ∀ l₁ l₂ : List α,
      List.dropWhile p (l₁ ++ a :: l₂) = List.dropWhile p l₁ ++ a :: l₂ := by
  intro l₁
  induction l₁ with
  | nil => intro l₂; simp [List.dropWhile_cons, h]
  | cons x xs ih =>
    intro l₂
    rw [List.cons_append, List.dropWhile_cons, List.dropWhile_cons]
    by_cases hx : p x = true
    · simp [hx, ih]
    · simp [hx]

/-- `dropWhile` keeps a list whose head falsifies the predicate. -/
theorem dwhile_cons_neg {α : Type} (p : α → Bool) (a : α) (l : List α)
    (h : p a = false) : List.dropWhile p (a :: l) = a :: l := by
  simp [List.dropWhile_cons, h]

/-- `takeWhile` takes exactly a satisfying run up to a falsifying element. -/
theorem twhile_append_all {α : Type} (p : α → Bool) (a : α) :
    ∀ l₁ l₂ : List α, (∀ x ∈ l₁, p x = true) → p a = false →
      List.takeWhile p (l₁ ++ a :: l₂) = l₁ := by
  intro l₁
  induction l₁ with
  | nil => intro l₂ _ ha; simp [List.takeWhile_cons, ha]
  | cons x xs ih =>
    intro l₂ hall ha
    rw [List.cons_append, List.takeWhile_cons]
    have hx := hall x (List.mem_cons_self x xs)
    simp [hx]
    exact ih l₂ (fun y hy => hall y (List.mem_cons_of_mem x hy)) ha

/-- The head surviving `dropWhile` falsifies the predicate. -/
theorem dwhile_head_neg {α : Type} (p : α → Bool) :
    ∀ (l : List α) (a : α) (t : List α), l.dropWhile p = a :: t → p a = false := by
  intro l
  induction l with
  | nil => intro a t h; cases h
  | cons x xs ih =>
    intro a t h
    rw [List.dropWhile_cons] at h
    by_cases hx : p x = true
    · simp [hx] at h
      exact ih a t h
    · simp [hx] at h
      rw [← h.1]
      simpa using hx

/-- `head?` of an append with a nonempty left part. -/
theorem head?_append_left {α : Type} (l₁ l₂ : List α) (h : l₁ ≠ []) :
    (l₁ ++ l₂).head? = l₁.head? := by
  cases l₁ with
  | nil => exact absurd rfl h
  | cons x xs => simp

/-- `digitChar` of a value below ten is a decimal digit character. -/
theorem digitChar_isDigit (d : ℕ) (h : d < 10) : (digitChar d).isDigit = true := by
  interval_cases d <;> decide

/-- A decimal digit character is none of the special characters of a decimal
string. -/
theorem isDigit_ne_special (c : Char) (h : c.isDigit = true) :
    c ≠ '.' ∧ c ≠ '-' ∧ c ≠ 'e' ∧ c ≠ 'E' ∧ c ≠ '+' := by
  refine ⟨?_, ?_, ?_, ?_, ?_⟩ <;> intro he <;> subst he <;> exact absurd h (by decide)

/-- With enough fuel, every produced character is a digit. -/
theorem natDigitsAux_mem :
    ∀ (fuel n : ℕ) (c : Char), n < fuel → c ∈ natDigitsAux fuel n →
      c.isDigit = true := by
  intro fuel
  induction fuel with
  | zero => intro n c h; omega
  | succ f ih =>
    intro n c _ hc
    by_cases hn : n < 10
    · simp [natDigitsAux, hn] at hc
      subst hc
      exact digitChar_isDigit n hn
    · simp [natDigitsAux, hn] at hc
      rcases hc with hc | hc
      · exact ih (n / 10) c (by omega) hc
      · subst hc
        exact digitChar_isDigit (n % 10) (by omega)

/-- With enough fuel, the digit list is never empty. -/
theorem natDigitsAux_ne_nil :
    ∀ (fuel n : ℕ), n < fuel → natDigitsAux fuel n ≠ [] := by
  intro fuel
  induction fuel with
  | zero => intro n h; omega
  | succ f _ =>
    intro n _
    by_cases hn : n < 10 <;> simp [natDigitsAux, hn]

/-- With enough fuel, a value below `10 ^ (k + 1)` yields at most `k + 1`
digits. -/
theorem natDigitsAux_len :
    ∀ (fuel k n : ℕ), n < fuel → n < 10 ^ (k + 1) →
      (natDigitsAux fuel n).length ≤ k + 1 := by
  intro fuel
  induction fuel with
  | zero => intro k n h; omega
  | succ f ih =>
    intro k n hf hk
    by_cases hn : n < 10
    · simp [natDigitsAux, hn]
    · rw [natDigitsAux]
      simp only [if_neg hn]
      rw [List.length_append]
      cases k with
      | zero =>
        exfalso
        simp at hk
        omega
      | succ k' =>
        have h1 : n / 10 < f := by omega
        have h2 : n / 10 < 10 ^ (k' + 1) := by
          rw [Nat.div_lt_iff_lt_mul (by norm_num)]
          calc n < 10 ^ (k' + 2) := hk
          _ = 10 ^ (k' + 1) * 10 := by ring
        have := ih k' (n / 10) h1 h2
        simp
        omega

/-- Every character of `natDigitsList` is a decimal digit. -/
theorem natDigitsList_mem (n : ℕ) (c : Char) (h : c ∈ natDigitsList n) :
    c.isDigit = true :=
  natDigitsAux_mem (n + 1) n c (Nat.lt_succ_self n) h

/-- `natDigitsList` is never empty. -/
theorem natDigitsList_ne_nil (n : ℕ) : natDigitsList n ≠ [] :=
  natDigitsAux_ne_nil (n + 1) n (Nat.lt_succ_self n)

/-- A value below `10 ^ 7` has at most seven digits. -/
theorem natDigitsList_len7 (n : ℕ) (h : n < 10 ^ 7) :
    (natDigitsList n).length ≤ 7 :=
  natDigitsAux_len (n + 1) 6 n (Nat.lt_succ_self n) h

/-- The padded fractional block has exactly seven characters. -/
theorem pad7_length (m : ℕ) (h : m < 10 ^ 7) : (pad7 m).length = 7 := by
  unfold pad7
  rw [List.length_append, List.length_replicate]
  have := natDigitsList_len7 m h
  omega

/-- Every character of the padded fractional block is a digit. -/
theorem pad7_mem (m : ℕ) (c : Char) (h : c ∈ pad7 m) : c.isDigit = true := by
  unfold pad7 at h
  rcases List.mem_append.mp h with h | h
  · rw [List.eq_of_mem_replicate h]
    decide
  · exact natDigitsList_mem m c h

/-- Reversal of the sign / integer part / point / fraction layout. -/
theorem rev_layout (sgn ipL frL : List Char) :
    (sgn ++ ipL ++ '.' :: frL).reverse =
      frL.reverse ++ '.' :: (ipL.reverse ++ sgn.reverse) := by
  simp [List.reverse_append, List.append_assoc]

/-- Both source branches of the formatter perform the same strip. -/
theorem format_quantity_num_data (q : ℚ) :
    (format_quantity_num q).data =
      rstripList '.' (rstripList '0' (formatFixed7 q).data) := by
  unfold format_quantity_num pyRstrip
  split <;> rfl

/-- Reversal of a single-character `rstrip`. -/
theorem rstrip_rev (c : Char) (l : List Char) :
    (rstripList c l).reverse = l.reverse.dropWhile (fun x => decide (x = c)) := by
  simp [rstripList]

/-- Structure of the formatter's numeric output, read in reverse: an optional
run of stripped fraction digits whose leading digit is nonzero, then (when
that run is nonempty) the decimal point, then the nonempty integer digits and
the optional sign. -/
theorem format_num_shape (q : ℚ) :
    ∃ si pi fr',
      (format_quantity_num q).data.reverse =
        (if fr' = [] then pi ++ si else fr' ++ '.' :: (pi ++ si)) ∧
      (∀ c ∈ si, c = '-') ∧
      (∀ c ∈ pi, c.isDigit = true) ∧ pi ≠ [] ∧
      (∀ c ∈ fr', c.isDigit = true) ∧ fr'.length ≤ 7 ∧
      (∀ c, fr'.head? = Option.some c → c ≠ '0') := by
  set n := (roundHalfEven ((if q < 0 then -q else q) * 10 ^ 7)).toNat with hn
  set sgn : List Char := if q < 0 then ['-'] else [] with hsgn
  set ipL := natDigitsList (n / 10 ^ 7) with hip
  set frL := pad7 (n % 10 ^ 7) with hfr
  have hdata : (formatFixed7 q).data = sgn ++ ipL ++ '.' :: frL := rfl
  have hfrdig : ∀ c ∈ frL.reverse, c.isDigit = true := by
    intro c hc
    exact pad7_mem _ c (List.mem_reverse.mp hc)
  have hipdig : ∀ c ∈ ipL.reverse, c.isDigit = true := by
    intro c hc
    exact natDigitsList_mem _ c (List.mem_reverse.mp hc)
  refine ⟨sgn.reverse, ipL.reverse,
    (frL.reverse).dropWhile (fun x => decide (x = '0')), ?_, ?_, ?_, ?_, ?_, ?_, ?_⟩
  · rw [format_quantity_num_data, rstrip_rev, rstrip_rev, hdata, rev_layout]
    rw [dwhile_append_neg _ '.' (by decide)]
    by_cases hfre : (frL.reverse).dropWhile (fun x => decide (x = '0')) = []
    · rw [hfre, if_pos rfl]
      simp only [List.nil_append]
      rw [List.dropWhile_cons]
      simp only [decide_eq_true_eq, eq_self_iff_true, if_true]
      cases hipc : ipL.reverse with
      | nil =>
        exfalso
        exact natDigitsList_ne_nil (n / 10 ^ 7) (by simpa using hipc)
      | cons c t =>
        simp only [List.cons_append]
        refine dwhile_cons_neg (fun x => decide (x = '.')) c _ ?_
        have hcd : c.isDigit = true := hipdig c (by rw [hipc]; exact List.mem_cons_self c t)
        exact decide_eq_false (isDigit_ne_special c hcd).1
    · cases hfrc : (frL.reverse).dropWhile (fun x => decide (x = '0')) with
      | nil => exact absurd hfrc hfre
      | cons h t =>
        rw [if_neg (by simp)]
        simp only [List.cons_append]
        have hhd : h.isDigit = true := by
          refine hfrdig h (mem_of_mem_dwhile (fun x => decide (x = '0'))
            frL.reverse h ?_)
          rw [hfrc]
          exact List.mem_cons_self h t
        rw [dwhile_cons_neg (fun x => decide (x = '.')) h _
          (decide_eq_false (isDigit_ne_special h hhd).1)]
  · intro c hc
    rw [hsgn] at hc
    by_cases hq : q < 0
    · simp [hq] at hc
      exact hc
    · simp [hq] at hc
  · exact hipdig
  · intro hnil
    exact natDigitsList_ne_nil (n / 10 ^ 7) (by simpa using hnil)
  · intro c hc
    exact hfrdig c (mem_of_mem_dwhile _ frL.reverse c hc)
  · calc ((frL.reverse).dropWhile (fun x => decide (x = '0'))).length
      ≤ frL.reverse.length := dwhile_length_le _ _
    _ = frL.length := by simp
    _ = 7 := pad7_length _ (Nat.mod_lt _ (by norm_num))
  · intro c hc
    cases hfrc : (frL.reverse).dropWhile (fun x => decide (x = '0')) with
    | nil => rw [hfrc] at hc; cases hc
    | cons h t =>
      rw [hfrc] at hc
      simp at hc
      subst hc
      have := dwhile_head_neg _ frL.reverse h t hfrc
      simpa using this

/-- Claim C6: on numeric input the Quantity Formatter returns a fixed-point
decimal string — only digits, an optional leading minus sign and an optional
decimal point, hence no exponent character — with at most seven fractional
digits, not ending in a decimal point, and with no trailing zero after the
point; a non-numeric string input is returned unchanged. -/
theorem C6_formatter_spec (q : ℚ) (s : String) (hs : parseFloat s = Option.none) :
    (∀ c ∈ (format_quantity_for_api (PyVal.num q)).data,
      (c.isDigit = true ∨ c = '-' ∨ c = '.') ∧ c ≠ 'e' ∧ c ≠ 'E') ∧
    fracDigits (format_quantity_for_api (PyVal.num q)) ≤ 7 ∧
    strLast (format_quantity_for_api (PyVal.num q)) ≠ Option.some '.' ∧
    ('.' ∈ (format_quantity_for_api (PyVal.num q)).data →
      strLast (format_quantity_for_api (PyVal.num q)) ≠ Option.some '0') ∧
    format_quantity_for_api (PyVal.str s) = s := by
  obtain ⟨si, pi, fr', hshape, hsi, hpi, hpine, hfr, hlen, hhead⟩ := format_num_shape q
  have hF : format_quantity_for_api (PyVal.num q) = format_quantity_num q := rfl
  have hchar : ∀ c ∈ (format_quantity_num q).data.reverse,
      c.isDigit = true ∨ c = '-' ∨ c = '.' := by
    intro c hc
    rw [hshape] at hc
    by_cases hfre : fr' = []
    · rw [if_pos hfre] at hc
      rcases List.mem_append.mp hc with h | h
      · exact Or.inl (hpi c h)
      · exact Or.inr (Or.inl (hsi c h))
    · rw [if_neg hfre] at hc
      rcases List.mem_append.mp hc with h | h
      · exact Or.inl (hfr c h)
      · rcases List.mem_cons.mp h with h | h
        · exact Or.inr (Or.inr h)
        · rcases List.mem_append.mp h with h | h
          · exact Or.inl (hpi c h)
          · exact Or.inr (Or.inl (hsi c h))
  rw [hF]
  by_cases hfre : fr' = []
  · have hnodot : ('.' : Char) ∉ (format_quantity_num q).data := by
      intro hdot
      have hd := List.mem_reverse.mpr hdot
      rw [hshape, if_pos hfre] at hd
      rcases List.mem_append.mp hd with h | h
      · exact absurd (hpi _ h) (by decide)
      · exact absurd (hsi _ h) (by decide)
    refine ⟨?_, ?_, ?_, ?_, ?_⟩
    · intro c hc
      rcases hchar c (List.mem_reverse.mpr hc) with h | h | h
      · obtain ⟨h1, h2, h3, h4, h5⟩ := isDigit_ne_special c h
        exact ⟨Or.inl h, h3, h4⟩
      · subst h
        exact ⟨Or.inr (Or.inl rfl), by decide, by decide⟩
      · subst h
        exact ⟨Or.inr (Or.inr rfl), by decide, by decide⟩
    · unfold fracDigits
      rw [if_neg hnodot]
      omega
    · unfold strLast
      rw [hshape, if_pos hfre]
      cases hpic : pi with
      | nil => exact absurd hpic hpine
      | cons c t =>
        rw [head?_append_left _ _ (by simp)]
        simp only [List.head?_cons]
        intro hcontra
        have hcd : c.isDigit = true := hpi c (by rw [hpic]; exact List.mem_cons_self c t)
        have := (isDigit_ne_special c hcd).1
        simp at hcontra
        exact this hcontra
    · intro hdot
      exact absurd hdot hnodot
    · simp [format_quantity_for_api, hs]
  · have hdotmem : ('.' : Char) ∈ (format_quantity_num q).data := by
      rw [← List.mem_reverse, hshape, if_neg hfre]
      exact List.mem_append_right _ (List.mem_cons_self _ _)
    refine ⟨?_, ?_, ?_, ?_, ?_⟩
    · intro c hc
      rcases hchar c (List.mem_reverse.mpr hc) with h | h | h
      · obtain ⟨h1, h2, h3, h4, h5⟩ := isDigit_ne_special c h
        exact ⟨Or.inl h, h3, h4⟩
      · subst h
        exact ⟨Or.inr (Or.inl rfl), by decide, by decide⟩
      · subst h
        exact ⟨Or.inr (Or.inr rfl), by decide, by decide⟩
    · unfold fracDigits
      rw [if_pos hdotmem, hshape, if_neg hfre]
      rw [twhile_append_all _ '.' fr' (pi ++ si) ?_ (by decide)]
      · exact hlen
      · intro x hx
        exact decide_eq_true ((isDigit_ne_special x (hfr x hx)).1)
    · unfold strLast
      rw [hshape, if_neg hfre]
      cases hfrc : fr' with
      | nil => exact absurd hfrc hfre
      | cons h t =>
        rw [head?_append_left _ _ (by simp)]
        simp only [List.head?_cons]
        intro hcontra
        have hcd : h.isDigit = true := hfr h (by rw [hfrc]; exact List.mem_cons_self h t)
        have := (isDigit_ne_special h hcd).1
        simp at hcontra
        exact this hcontra
    · intro _
      unfold strLast
      rw [hshape, if_neg hfre]
      cases hfrc : fr' with
      | nil => exact absurd hfrc hfre
      | cons h t =>
        rw [head?_append_left _ _ (by simp)]
        simp only [List.head?_cons]
        intro hcontra
        simp at hcontra
        refine hhead h ?_ hcontra
        rw [hfrc]
        rfl
    · simp [format_quantity_for_api, hs]

/-- Witness for C6 at the numeric input `1/2` and the non-numeric input
`"x"`. -/
theorem C6_formatter_spec_witness :
    (∀ c ∈ (format_quantity_for_api (PyVal.num (1 / 2))).data,
      (c.isDigit = true ∨ c = '-' ∨ c = '.') ∧ c ≠ 'e' ∧ c ≠ 'E') ∧
    fracDigits (format_quantity_for_api (PyVal.num (1 / 2))) ≤ 7 ∧
    strLast (format_quantity_for_api (PyVal.num (1 / 2))) ≠ Option.some '.' ∧
    ('.' ∈ (format_quantity_for_api (PyVal.num (1 / 2))).data →
      strLast (format_quantity_for_api (PyVal.num (1 / 2))) ≠ Option.some '0') ∧
    format_quantity_for_api (PyVal.str "x") = "x" :=
  C6_formatter_spec (1 / 2) "x" (by decide)
